import Mathlib

/-!
Verification of the rustainer container runtime (src/actions/pull.rs,
run.rs, rm.rs, types.rs, main.rs) against its natural-language
specification.  Rust strings are modelled as `String`/`List Char`
(all characters the code inspects are ASCII, so byte positions and
character positions coincide); machine integers (`u16`, `u64`, `usize`)
are modelled as `Nat`; fallible operations return `Except`/`Option`;
the filesystem is modelled as the ordered list of paths written, and
external commands (`ip`, `iptables`, ...) as an environment function
from an argv to a result record.
-/

set_option maxHeartbeats 1000000

/-- Bool test mirroring Rust `str::contains(char)`: does the character
list contain character `c`? -/
def hasChar (c : Char) (l : List Char) : Bool :=
  l.any (fun x => x == c)

/-- Bool test mirroring Rust `str::contains(&str)`: does `l` contain
`pat` as a contiguous substring? -/
def substrContains (l pat : List Char) : Bool :=
  (List.tails l).any (fun t => pat.isPrefixOf t)

/-- Split a character list at every character satisfying `p`,
keeping empty segments, mirroring Rust `str::split`.  The result is
always non-empty (splitting the empty string yields one empty part). -/
def splitOnPred (p : Char → Bool) : List Char → List (List Char)
  | [] => [[]]
  | c :: rest =>
    if p c then [] :: splitOnPred p rest
    else
      match splitOnPred p rest with
      | q :: qs => (c :: q) :: qs
      | [] => [[c]]

/-- Rust `port_mapping.split(':')` from run.rs `parse_port_mapping`
and rm.rs `stop_container`. -/
def splitOnColon (l : List Char) : List (List Char) :=
  splitOnPred (fun c => c == ':') l

/-- Re-join segments with a separator character; inverse of
`splitOnPred` for a single-character separator. -/
def joinChar (sep : Char) : List (List Char) → List Char
  | [] => []
  | [q] => q
  | q :: r :: rs => q ++ sep :: joinChar sep (r :: rs)

/-- Model of Rust `env_var.find('=')` followed by slicing in
run.rs `prepare_environment`: split at the first `=`, returning the
key (before) and value (after), or `none` when no `=` occurs. -/
def splitFirstEq (l : List Char) : Option (List Char × List Char) :=
  match l with
  | [] => none
  | c :: rest =>
    if c == '=' then some ([], rest)
    else
      match splitFirstEq rest with
      | some (k, v) => some (c :: k, v)
      | none => none

/-- Model of Rust `image_tag.rfind(':')` followed by slicing in
pull.rs `parse_image_tag`: split at the LAST `:`, returning the parts
before and after it, or `none` when no `:` occurs. -/
def splitLastColon (l : List Char) : Option (List Char × List Char) :=
  match l with
  | [] => none
  | c :: rest =>
    match splitLastColon rest with
    | some (a, b) => some (c :: a, b)
    | none => if c == ':' then some ([], rest) else none

/-- The pattern removed by `digest.replace("sha256:", "")` in
pull.rs `download_blob` and run.rs. -/
def shaPat : List Char := "sha256:".data

/-- Fuel-indexed worker for `str::replace("sha256:", "")`:
left-to-right, non-overlapping removal of every occurrence of
`shaPat`.  One unit of fuel is spent per step; fuel equal to the
length of the list always suffices. -/
def replaceShaAux : Nat → List Char → List Char
  | 0, l => l
  | _ + 1, [] => []
  | fuel + 1, c :: rest =>
    if shaPat.isPrefixOf (c :: rest) then
      replaceShaAux fuel (List.drop shaPat.length (c :: rest))
    else
      c :: replaceShaAux fuel rest

/-- Rust `digest.replace("sha256:", "")` from pull.rs `download_blob`
(also used by run.rs `load_image_config` and `extract_layer`). -/
def blobFilename (digest : String) : String :=
  String.mk (replaceShaAux digest.data.length digest.data)

/-- Decimal digit character, as produced by Rust `format!` for
unsigned integers. -/
def digitChar (n : Nat) : Char := Char.ofNat (48 + n)

/-- Fuel-indexed decimal rendering of a `Nat`, most significant digit
first, accumulator style.  Mirrors Rust's `Display` for `u64`/`usize`. -/
def natDigitsAux : Nat → Nat → List Char → List Char
  | 0, _, acc => acc
  | fuel + 1, n, acc =>
    if n < 10 then digitChar n :: acc
    else natDigitsAux fuel (n / 10) (digitChar (n % 10) :: acc)

/-- Decimal rendering of a `Nat` as a character list. -/
def natDigits (n : Nat) : List Char := natDigitsAux (n + 1) n []

/-- Decimal rendering of a `Nat` as a `String`, mirroring Rust
`format!("{}", n)` for unsigned integers. -/
def natStr (n : Nat) : String := String.mk (natDigits n)

/-! ## Data model (types.rs) -/

/-- types.rs `Layer`: a blob descriptor with media type, size and
`sha256:`-prefixed digest.  Used both for the manifest `config`
descriptor and for each layer. -/
structure Layer where
  mediaType : String
  size : Nat
  digest : String
deriving DecidableEq

/-- types.rs `ImageManifest`: a v2 image manifest. -/
structure ImageManifest where
  schemaVersion : Int
  mediaType : String
  config : Layer
  layers : List Layer
deriving DecidableEq

/-- types.rs `Platform`: target platform of a manifest-list entry. -/
structure Platform where
  architecture : String
  os : String
  variant : Option String
deriving DecidableEq

/-- types.rs `PlatformManifest`: one entry of a manifest list. -/
structure PlatformManifest where
  mediaType : String
  size : Nat
  digest : String
  platform : Option Platform
deriving DecidableEq

/-! ## pull.rs -/

/-- The `library/` normalization applied to a repository without `/`
in pull.rs `parse_image_tag` (both branches). -/
def addLibrary (repo : List Char) : List Char :=
  if hasChar '/' repo then repo else "library/".data ++ repo

/-- pull.rs `parse_image_tag`: split the reference at the last `:`
into repository and tag (tag defaults to `latest` when no `:` is
present), then prefix `library/` to a repository containing no `/`. -/
def parse_image_tag (l : List Char) : List Char × List Char :=
  match splitLastColon l with
  | some (repo, tag) => (addLibrary repo, tag)
  | none => (addLibrary l, "latest".data)

/-- Path of a blob file written by pull.rs `download_blob`:
`format!("{}/{}", image_dir, digest.replace("sha256:", ""))`. -/
def blobPath (imageDir digest : String) : String :=
  imageDir ++ "/" ++ blobFilename digest

/-- Path of the manifest written by pull.rs `pull_image`:
`format!("{}/manifest.json", image_dir)`. -/
def manifestPath (imageDir : String) : String :=
  imageDir ++ "/manifest.json"

/-- pull.rs `download_blob`, restricted to its filesystem effect on
the success path: append one write of the blob file to the write
trace.  The trace of written paths doubles as the set of files
present afterwards. -/
def download_blob (fs : List String) (imageDir digest : String) : List String :=
  fs ++ [blobPath imageDir digest]

/-- pull.rs `pull_image`, success path, lines 56-81: after the
manifest is resolved, download the config blob, then each layer blob
in manifest order, then write `manifest.json` last.  Returns the
write trace extending the initial filesystem `fs`. -/
def pull_image (fs : List String) (imageDir : String) (m : ImageManifest) : List String :=
  let fs1 := download_blob fs imageDir m.config.digest
  let fs2 := m.layers.foldl (fun acc l => download_blob acc imageDir l.digest) fs1
  fs2 ++ [manifestPath imageDir]

/-- The platform predicate of the closure in pull.rs lines 28-34:
the entry has a platform with `os == "linux"` and
`architecture == "amd64"`. -/
def matchesLinuxAmd64 (m : PlatformManifest) : Bool :=
  match m.platform with
  | some p => p.os == "linux" && p.architecture == "amd64"
  | none => false

/-- Platform selection of pull.rs lines 25-36:
`manifests.iter().find(linux/amd64).or_else(|| manifests.first()).ok_or(...)`. -/
def selectManifest (ms : List PlatformManifest) : Except String PlatformManifest :=
  match (ms.find? matchesLinuxAmd64).orElse (fun _ => ms.head?) with
  | some m => Except.ok m
  | none => Except.error "No suitable manifest found in manifest list"

/-! ## run.rs: environment merge and command selection -/

/-- One entry of an `Env` list as run.rs `prepare_environment` parses
it: split on the first `=`; entries without `=` yield `none` and are
dropped. -/
def envPair (s : String) : Option (String × String) :=
  match splitFirstEq s.data with
  | some (k, v) => some (String.mk k, String.mk v)
  | none => none

/-- Model of `HashMap::insert` on an association list: any existing
binding of the key is removed and the new binding appended.  The
association list carries each key at most once, exactly like the
`HashMap<String, String>` of run.rs. -/
def envInsert (m : List (String × String)) (k v : String) : List (String × String) :=
  m.filter (fun p => !(p.1 == k)) ++ [(k, v)]

/-- One of the two `for` loops of run.rs `prepare_environment`:
insert every `KEY=VALUE` entry of `envs` into the map, dropping
entries without `=`. -/
def envInsertAll (m : List (String × String)) (envs : List String) : List (String × String) :=
  envs.foldl
    (fun acc e =>
      match envPair e with
      | some (k, v) => envInsert acc k v
      | none => acc) m

/-- run.rs `prepare_environment`: start from an empty map, insert all
image `Env` entries, then all user `-e` entries (so user entries
overwrite image entries, and within one list later entries overwrite
earlier ones). -/
def prepare_environment (userEnvs imageEnvs : List String) : List (String × String) :=
  envInsertAll (envInsertAll [] imageEnvs) userEnvs

/-- Lookup in the association-list model of the environment map. -/
def envLookup (m : List (String × String)) (k : String) : Option String :=
  (m.find? (fun p => p.1 == k)).map (fun p => p.2)

/-- Specification-side characterization (for the refinement statement
of the env-merge claim): the value of the LAST entry of `envs` that
splits on its first `=` to the key `k`, or `none` when no entry does. -/
def lastEnvValue (envs : List String) (k : String) : Option String :=
  match envs with
  | [] => none
  | e :: rest =>
    match lastEnvValue rest k with
    | some v => some v
    | none =>
      match envPair e with
      | some (k2, v) => if k2 == k then some v else none
      | none => none

/-- First-of-two-options combinator (`Option.orElse` without the
thunk), used to state "user value if present, else image value". -/
def oor (a b : Option String) : Option String :=
  match a with
  | some v => some v
  | none => b

/-- run.rs `prepare_command`: a supplied user command is used
verbatim; otherwise a non-empty entrypoint is concatenated with the
image command; otherwise a non-empty image command is used; otherwise
`["/bin/sh"]`. -/
def prepare_command (userCmd : Option (List String)) (imageCmd imageEntrypoint : List String) :
    List String :=
  match userCmd with
  | some c => c
  | none =>
    if !imageEntrypoint.isEmpty then imageEntrypoint ++ imageCmd
    else if !imageCmd.isEmpty then imageCmd
    else ["/bin/sh"]

/-! ## run.rs: ports, container id, container IP, veth names -/

/-- Digit-string parsing as in Rust `str::parse::<u16>`: an optional
leading `+`, then one or more ASCII digits; the numeric value.  No
sign handling beyond `+` (a `u16` admits no `-`), no whitespace. -/
def parseDigits (l : List Char) : Option Nat :=
  if l.isEmpty then none
  else if l.all (fun c => c.isDigit) then
    some (l.foldl (fun acc c => acc * 10 + (c.toNat - 48)) 0)
  else none

/-- Rust `parts[i].parse::<u16>()`: strip an optional leading `+`,
parse the digits, and reject values that do not fit in 16 bits. -/
def parseU16 (l : List Char) : Option Nat :=
  let l2 := match l with
    | '+' :: rest => rest
    | _ => l
  match parseDigits l2 with
  | some n => if n < 65536 then some n else none
  | none => none

/-- run.rs `parse_port_mapping`: split on `:`, require exactly two
parts, parse both as `u16`, and return `(host_port, container_port)`. -/
def parse_port_mapping (l : List Char) : Except String (Nat × Nat) :=
  match splitOnColon l with
  | [a, b] =>
    match parseU16 a with
    | none => Except.error "invalid digit found in string"
    | some hp =>
      match parseU16 b with
      | none => Except.error "invalid digit found in string"
      | some cp => Except.ok (hp, cp)
  | _ => Except.error "Port mapping format should be host_port:container_port"

/-- run.rs `run_container` lines 44-50: the container id is
`format!("rustainer_{}", timestamp)` where `timestamp` is the unix
time in seconds. -/
def containerId (ts : Nat) : String :=
  "rustainer_" ++ natStr ts

/-- run.rs `configure_container_interface` line 410:
`(container_id.len() % 254) + 2`. -/
def ipSuffixInterface (id : String) : Nat :=
  (id.data.length % 254) + 2

/-- run.rs `setup_port_forwarding` line 555: the same expression
`(container_id.len() % 254) + 2`, computed independently. -/
def ipSuffixForwarding (id : String) : Nat :=
  (id.data.length % 254) + 2

/-- run.rs `configure_container_interface` line 411:
`format!("172.18.0.{}/16", ip_suffix)`. -/
def containerIpInterface (id : String) : String :=
  "172.18.0." ++ natStr (ipSuffixInterface id) ++ "/16"

/-- run.rs `setup_port_forwarding` line 556:
`format!("172.18.0.{}", ip_suffix)`. -/
def containerIpForwarding (id : String) : String :=
  "172.18.0." ++ natStr (ipSuffixForwarding id)

/-- run.rs `create_veth_pair` lines 318-319: the veth names are
`format!("veth-{}", &container_id[..8])` on the host side and
`format!("cveth-{}", &container_id[..8])` on the container side,
with the first 8 characters of the container id (the id is ASCII, so
Rust's byte slice equals the character prefix). -/
def create_veth_pair_names (id : String) : String × String :=
  ("veth-" ++ String.mk (id.data.take 8), "cveth-" ++ String.mk (id.data.take 8))

/-! ## rm.rs: remove_container / stop_container -/

/-- Result of running one external command: exit success, captured
stdout and stderr.  The runtime only ever inspects these three
fields of `std::process::Output`. -/
structure CmdResult where
  success : Bool
  stdout : String
  stderr : String

/-- The `iptables -t nat -D <chain> ... --dport <host_port> -j DNAT`
argv built in rm.rs `stop_container` lines 44-63. -/
def iptablesDeleteDnat (chain : String) (hostPort : List Char) : List String :=
  ["iptables", "-t", "nat", "-D", chain, "-p", "tcp", "--dport", String.mk hostPort, "-j", "DNAT"]

/-- The port-teardown loop of rm.rs `stop_container` lines 39-65: for
every stored mapping that splits on `:` into exactly two parts, run
the PREROUTING and OUTPUT DNAT deletions for the host port.  The
results of both commands are discarded (`let _ = ...`). -/
def portTeardownCmds (ports : List String) : List (List String) :=
  ports.foldr
    (fun p acc =>
      match splitOnColon p.data with
      | [a, _b] => iptablesDeleteDnat "PREROUTING" a :: iptablesDeleteDnat "OUTPUT" a :: acc
      | _ => acc) []

/-- Rust `str::lines`: split on `\n`, drop a final empty segment
produced by a trailing newline, and strip one trailing `\r` from each
line. -/
def rustLines (l : List Char) : List (List Char) :=
  let parts := splitOnPred (fun c => c == '\n') l
  let parts2 := if parts.getLast? = some [] then parts.dropLast else parts
  parts2.map (fun q => match q.getLast? with
    | some c => if c == '\x0d' then q.dropLast else q
    | none => q)

/-- Rust `str::split_whitespace`: split on whitespace and drop empty
segments. -/
def splitWhitespaceL (l : List Char) : List (List Char) :=
  (splitOnPred Char.isWhitespace l).filter (fun q => !q.isEmpty)

/-- The `ps -ef` scan of rm.rs `stop_container` lines 85-94: the
first line containing the container id and either `chroot` or
`unshare` whose whitespace-split has more than one field yields its
second field as the PID to kill. -/
def findProcessToKill (id : String) (psStdout : String) : Option (List Char) :=
  (rustLines psStdout.data).findSome?
    (fun line =>
      if substrContains line id.data &&
          (substrContains line ("chroot".data) || substrContains line ("unshare".data)) then
        match splitWhitespaceL line with
        | _ :: pid :: _ => some pid
        | _ => none
      else none)

/-- rm.rs `stop_container`, modelled as the ordered argv trace of the
external commands it runs under the command environment `exec`.
Every command result is discarded except the stdout of
`ip netns list` (gating the kill block) and of `ps -ef` (PID search);
in particular no exit status and no stderr is ever inspected, so the
function cannot fail. -/
def stop_container (exec : List String → CmdResult) (ports : List String) (id : String) :
    List (List String) :=
  let portCmds := portTeardownCmds ports
  let netnsListCmd := ["ip", "netns", "list"]
  let listRes := exec netnsListCmd
  let nsCmds :=
    if substrContains listRes.stdout.data id.data then
      let killallCmd := ["nsenter", "--net=/var/run/netns/", id, "--", "killall5", "-9"]
      let psCmd := ["ps", "-ef"]
      let psRes := exec psCmd
      let killCmds :=
        match findProcessToKill id psRes.stdout with
        | some pid => [["kill", "-9", "-", String.mk pid], ["kill", "-9", String.mk pid]]
        | none => []
      killallCmd :: psCmd :: (killCmds ++ [["ip", "netns", "delete", id]])
    else []
  portCmds ++ netnsListCmd :: (nsCmds ++ [["iptables", "-F", "FORWARD"]])

/-- rm.rs `remove_container`: reject when the container directory is
missing (no command is run, no state changes); otherwise run the
teardown of `stop_container` and then remove the directory.  The
state is the list of existing container directories `dirs`; the
second component is the argv trace of the external commands run. -/
def remove_container (exec : List String → CmdResult) (dirs ports : List String) (id : String) :
    Except String (List String) × List (List String) :=
  if dirs.contains id then
    (Except.ok (dirs.erase id), stop_container exec ports id)
  else
    (Except.error ("Container " ++ id ++ " does not exist"), [])

/-- A command environment in which every external command fails with
a permission error: used to exhibit that the teardown path of rm.rs
ignores command failures unconditionally. -/
def denyExec : List String → CmdResult :=
  fun _ => { success := false, stdout := "", stderr := "Operation not permitted" }

/-! ## Helper lemmas: hasChar -/

theorem hasChar_false_iff (c : Char) (l : List Char) :
    hasChar c l = false ↔ ∀ x ∈ l, x ≠ c := by
  simp [hasChar]

theorem hasChar_true_iff (c : Char) (l : List Char) :
    hasChar c l = true ↔ c ∈ l := by
  simp [hasChar]

theorem hasChar_append (c : Char) (a b : List Char) :
    hasChar c (a ++ b) = (hasChar c a || hasChar c b) := by
  simp [hasChar, List.any_append]

theorem hasChar_cons (c x : Char) (l : List Char) :
    hasChar c (x :: l) = ((x == c) || hasChar c l) := by
  simp [hasChar]

/-! ## Helper lemmas: splitLastColon -/

theorem splitLastColon_of_no_colon (l : List Char) (h : hasChar ':' l = false) :
    splitLastColon l = none := by
  induction l with
  | nil => rfl
  | cons c rest ih =>
    rw [hasChar_cons] at h
    have h1 : (c == ':') = false := by
      cases hx : (c == ':') <;> simp [hx] at h ⊢
    have h2 : hasChar ':' rest = false := by
      cases hx : hasChar ':' rest <;> simp [hx] at h ⊢
    simp [splitLastColon, ih h2, h1]

theorem no_colon_of_splitLastColon_none (l : List Char) (h : splitLastColon l = none) :
    hasChar ':' l = false := by
  induction l with
  | nil => rfl
  | cons c rest ih =>
    rw [hasChar_cons]
    cases hr : splitLastColon rest with
    | some p => rw [splitLastColon, hr] at h; cases h
    | none =>
      rw [splitLastColon, hr] at h
      cases hc : (c == ':') with
      | true => rw [hc] at h; simp at h
      | false => simp [ih hr]

theorem splitLastColon_eq_some (l a b : List Char) (h : splitLastColon l = some (a, b)) :
    l = a ++ ':' :: b ∧ hasChar ':' b = false := by
  induction l generalizing a b with
  | nil => cases h
  | cons c rest ih =>
    cases hr : splitLastColon rest with
    | some p =>
      rw [splitLastColon, hr] at h
      obtain ⟨a', b'⟩ := p
      injection h with h
      injection h with h1 h2
      subst h2
      obtain ⟨hrest, hb⟩ := ih a' b' hr
      subst hrest
      subst h1
      exact ⟨by simp, hb⟩
    | none =>
      rw [splitLastColon, hr] at h
      cases hc : (c == ':') with
      | false => rw [hc] at h; cases h
      | true =>
        rw [hc] at h
        injection h with h
        injection h with h1 h2
        subst h1; subst h2
        have := eq_of_beq hc
        subst this
        exact ⟨rfl, no_colon_of_splitLastColon_none _ hr⟩

theorem splitLastColon_append (a b : List Char) (hb : hasChar ':' b = false) :
    splitLastColon (a ++ ':' :: b) = some (a, b) := by
  induction a with
  | nil => simp [splitLastColon, splitLastColon_of_no_colon b hb]
  | cons c a ih => simp [splitLastColon, ih]

/-! ## Helper lemmas: addLibrary -/

theorem addLibrary_has_slash (r : List Char) : hasChar '/' (addLibrary r) = true := by
  unfold addLibrary
  cases hr : hasChar '/' r with
  | true => simpa using hr
  | false =>
    simp only [Bool.false_eq_true, if_false, hasChar_append]
    rw [show hasChar '/' ("library/".data) = true from by decide]
    rfl

theorem addLibrary_of_slash (r : List Char) (h : hasChar '/' r = true) :
    addLibrary r = r := by
  simp [addLibrary, h]

/-- C4 (amended): for every reference, joining the parsed pair back
with `:` and re-parsing yields the same pair; a reference containing
no `/` gains the `library/` prefix on its repository; a reference
with no `:` gets tag `latest`; when a `:` is present the tag is the
part after the LAST `:` (it contains no `:`); and the returned tag is
empty exactly when the reference ends in `:` (the original claim
"the returned tag is never empty" fails there). -/
theorem C4_parse_image_tag (l : List Char) :
    parse_image_tag ((parse_image_tag l).1 ++ ':' :: (parse_image_tag l).2) = parse_image_tag l ∧
    (hasChar '/' l = false →
      ∃ r0, (parse_image_tag l).1 = "library/".data ++ r0 ∧
        (l = r0 ++ ':' :: (parse_image_tag l).2 ∨
          (l = r0 ∧ (parse_image_tag l).2 = "latest".data))) ∧
    (hasChar ':' l = false → (parse_image_tag l).2 = "latest".data) ∧
    (hasChar ':' l = true →
      ∃ a, l = a ++ ':' :: (parse_image_tag l).2 ∧
        hasChar ':' (parse_image_tag l).2 = false ∧
        (parse_image_tag l).1 = addLibrary a) ∧
    ((parse_image_tag l).2 = [] ↔ ∃ a, l = a ++ [':']) := by
  cases h : splitLastColon l with
  | some p =>
    obtain ⟨a, b⟩ := p
    obtain ⟨hl, hb⟩ := splitLastColon_eq_some l a b h
    have hparse : parse_image_tag l = (addLibrary a, b) := by
      simp [parse_image_tag, h]
    rw [hparse]
    refine ⟨?_, ?_, ?_, ?_, ?_⟩
    · simp only [parse_image_tag, splitLastColon_append _ _ hb]
      rw [addLibrary_of_slash _ (addLibrary_has_slash a)]
    · intro hs
      refine ⟨a, ?_, Or.inl hl⟩
      have ha : hasChar '/' a = false := by
        subst hl
        rw [hasChar_append] at hs
        cases hx : hasChar '/' a <;> simp [hx] at hs ⊢
      simp [addLibrary, ha]
    · intro hs
      exfalso
      subst hl
      rw [hasChar_append, hasChar_cons] at hs
      simp at hs
    · intro _
      exact ⟨a, hl, hb, rfl⟩
    · constructor
      · intro hbnil
        subst hbnil
        exact ⟨a, hl⟩
      · intro hx
        obtain ⟨a', hl'⟩ := hx
        have h2 : splitLastColon l = some (a', []) := by
          rw [hl']
          simpa using splitLastColon_append a' [] (by decide)
        rw [h] at h2
        simp only [Option.some.injEq, Prod.mk.injEq] at h2
        exact h2.2
  | none =>
    have hnc : hasChar ':' l = false := no_colon_of_splitLastColon_none l h
    have hparse : parse_image_tag l = (addLibrary l, "latest".data) := by
      simp [parse_image_tag, h]
    rw [hparse]
    refine ⟨?_, ?_, ?_, ?_, ?_⟩
    · simp only [parse_image_tag, splitLastColon_append _ _ (show hasChar ':' ("latest".data) = false by decide)]
      rw [addLibrary_of_slash _ (addLibrary_has_slash l)]
    · intro hs
      exact ⟨l, by simp [addLibrary, hs], Or.inr ⟨rfl, rfl⟩⟩
    · intro _; rfl
    · intro hs; rw [hnc] at hs; cases hs
    · constructor
      · intro hx; cases hx
      · intro hx
        obtain ⟨a', hl'⟩ := hx
        exfalso
        rw [hl', hasChar_append, hasChar_cons] at hnc
        simp at hnc

/-- C4 counterexample to the original claim: parsing `"a:"` returns
an empty tag, so "the returned tag is never empty" is false. -/
theorem C4_counterexample : (parse_image_tag ("a:".data)).2 = [] := by decide

/-- C4 witness: the amended theorem applied at the reference
`"nginx"`. -/
theorem C4_witness :
    parse_image_tag ((parse_image_tag ("nginx".data)).1 ++ ':' :: (parse_image_tag ("nginx".data)).2)
        = parse_image_tag ("nginx".data) ∧
    (∃ r0, (parse_image_tag ("nginx".data)).1 = "library/".data ++ r0 ∧
        ("nginx".data = r0 ++ ':' :: (parse_image_tag ("nginx".data)).2 ∨
          ("nginx".data = r0 ∧ (parse_image_tag ("nginx".data)).2 = "latest".data))) ∧
    (parse_image_tag ("nginx".data)).2 = "latest".data :=
  ⟨(C4_parse_image_tag ("nginx".data)).1,
   (C4_parse_image_tag ("nginx".data)).2.1 (by decide),
   (C4_parse_image_tag ("nginx".data)).2.2.1 (by decide)⟩

/-- C5 counterexample: for `r = "a"`, `t = "b:c"` the concatenation
parses to `("library/a:b", "c")`, not to the claimed
`(library-prefixed r, t)`: the last `:` of the joined reference lies
inside `t`. -/
theorem C5_counterexample :
    parse_image_tag ("a".data ++ ':' :: "b:c".data) ≠
      ((if hasChar '/' ("a".data) then "a".data else "library/".data ++ "a".data), "b:c".data) := by
  decide

/-- C5 (amended): for all `r` and all `t` containing no `:`,
`parse_image_tag (r ++ ":" ++ t)` returns `(r', t)` with
`r' = r` when `r` contains `/` and `r' = "library/" ++ r` otherwise. -/
theorem C5_parse_concat (r t : List Char) (ht : hasChar ':' t = false) :
    parse_image_tag (r ++ ':' :: t) =
      ((if hasChar '/' r then r else "library/".data ++ r), t) := by
  simp [parse_image_tag, splitLastColon_append r t ht, addLibrary]

/-- C5 witness: the amended theorem at `r = "a"`, `t = "b"`. -/
theorem C5_witness :
    parse_image_tag ("a".data ++ ':' :: "b".data) =
      ((if hasChar '/' ("a".data) then "a".data else "library/".data ++ "a".data), "b".data) :=
  C5_parse_concat ("a".data) ("b".data) (by decide)

/-- C3 counterexample to the original claim: with an (empty) user
command supplied, the selected argv is empty even though the image
has both a command and an entrypoint, so "for every combination ...
non-empty argv" is false. -/
theorem C3_counterexample : prepare_command (some []) ["x"] ["y"] = [] := rfl

/-- C3 (amended): command selection is total and, provided a supplied
user command is non-empty, the resulting argv is non-empty and
follows the precedence: user command verbatim; else non-empty
entrypoint ++ cmd; else non-empty cmd; else `["/bin/sh"]`. -/
theorem C3_prepare_command (u : Option (List String)) (c e : List String)
    (hu : ∀ x, u = some x → x ≠ []) :
    prepare_command u c e ≠ [] ∧
    (∀ x, u = some x → prepare_command u c e = x) ∧
    (u = none → e ≠ [] → prepare_command u c e = e ++ c) ∧
    (u = none → e = [] → c ≠ [] → prepare_command u c e = c) ∧
    (u = none → e = [] → c = [] → prepare_command u c e = ["/bin/sh"]) := by
  cases u with
  | some x =>
    refine ⟨hu x rfl, ?_, ?_, ?_, ?_⟩
    · intro y hy
      exact (Option.some.injEq x y).mp hy
    · intro hx; cases hx
    · intro hx; cases hx
    · intro hx; cases hx
  | none =>
    cases e with
    | cons e0 es =>
      refine ⟨by simp [prepare_command], ?_, ?_, ?_, ?_⟩
      · intro y hy; cases hy
      · intro _ _; simp [prepare_command]
      · intro _ hx; cases hx
      · intro _ hx; cases hx
    | nil =>
      cases c with
      | cons c0 cs =>
        refine ⟨by simp [prepare_command], ?_, ?_, ?_, ?_⟩
        · intro y hy; cases hy
        · intro _ hx; exact absurd rfl hx
        · intro _ _ _; simp [prepare_command]
        · intro _ _ hx; cases hx
      | nil =>
        refine ⟨by simp [prepare_command], ?_, ?_, ?_, ?_⟩
        · intro y hy; cases hy
        · intro _ hx; exact absurd rfl hx
        · intro _ _ hx; exact absurd rfl hx
        · intro _ _ _; rfl

/-- C3 witness: the amended theorem at the spec's example
`user = Some(["sh"])`, entrypoint `["/usr/bin/nginx"]`. -/
theorem C3_witness : prepare_command (some ["sh"]) [] ["/usr/bin/nginx"] = ["sh"] :=
  (C3_prepare_command (some ["sh"]) [] ["/usr/bin/nginx"]
      (by intro x hx; injection hx with hx; subst hx; simp)).2.1 ["sh"] rfl

/-- C6: platform selection returns the first manifest-list entry
whose platform is `linux`/`amd64`; if no entry matches it returns the
first entry; and on an empty list it fails with an error. -/
theorem C6_selectManifest (ms : List PlatformManifest) :
    (ms = [] → selectManifest ms = Except.error "No suitable manifest found in manifest list") ∧
    (∀ pre k post, ms = pre ++ k :: post →
      (∀ x, x ∈ pre → matchesLinuxAmd64 x = false) →
      matchesLinuxAmd64 k = true →
      selectManifest ms = Except.ok k) ∧
    ((∀ x, x ∈ ms → matchesLinuxAmd64 x = false) →
      ∀ h hs, ms = h :: hs → selectManifest ms = Except.ok h) := by
  refine ⟨?_, ?_, ?_⟩
  · intro hnil
    subst hnil
    rfl
  · intro pre k post hms hpre hk
    subst hms
    have hfind : (pre ++ k :: post).find? matchesLinuxAmd64 = some k := by
      induction pre with
      | nil => simp [List.find?_cons_of_pos, hk]
      | cons p ps ih =>
        rw [List.cons_append, List.find?_cons_of_neg]
        · exact ih (fun x hx => hpre x (List.mem_cons_of_mem p hx))
        · simp [hpre p (List.mem_cons_self p ps)]
    simp [selectManifest, hfind, Option.orElse]
  · intro hall h hs hms
    subst hms
    have hfind : (h :: hs).find? matchesLinuxAmd64 = none := by
      rw [List.find?_eq_none]
      intro x hx
      simp [hall x hx]
    simp [selectManifest, hfind, Option.orElse]

/-- C6 witness: the first `linux`/`amd64` entry is selected past a
non-matching entry. -/
theorem C6_witness :
    selectManifest
      [⟨"mt", 1, "sha256:bb", some ⟨"arm64", "linux", none⟩⟩,
       ⟨"mt", 2, "sha256:aa", some ⟨"amd64", "linux", none⟩⟩] =
      Except.ok ⟨"mt", 2, "sha256:aa", some ⟨"amd64", "linux", none⟩⟩ :=
  (C6_selectManifest _).2.1
    [⟨"mt", 1, "sha256:bb", some ⟨"arm64", "linux", none⟩⟩]
    ⟨"mt", 2, "sha256:aa", some ⟨"amd64", "linux", none⟩⟩
    [] rfl
    (by
      intro x hx
      simp only [List.mem_singleton] at hx
      subst hx
      decide)
    (by decide)

/-! ## Helper lemmas: splitOnPred / splitOnColon -/

theorem splitOnPred_ne_nil (p : Char → Bool) (l : List Char) : splitOnPred p l ≠ [] := by
  cases l with
  | nil => simp [splitOnPred]
  | cons c rest =>
    simp only [splitOnPred]
    cases hp : p c with
    | true => simp
    | false =>
      cases hs : splitOnPred p rest with
      | nil => simp
      | cons q qs => simp

theorem splitOnPred_parts (p : Char → Bool) (l : List Char) :
    ∀ q ∈ splitOnPred p l, ∀ c ∈ q, p c = false := by
  induction l with
  | nil =>
    intro q hq
    simp only [splitOnPred, List.mem_singleton] at hq
    subst hq
    intro c hc
    cases hc
  | cons c rest ih =>
    intro q hq
    simp only [splitOnPred] at hq
    cases hp : p c with
    | true =>
      rw [hp] at hq
      simp only [if_true] at hq
      rcases List.mem_cons.mp hq with h | h
      · subst h; intro d hd; cases hd
      · exact ih q h
    | false =>
      rw [hp] at hq
      simp only [Bool.false_eq_true, if_false] at hq
      cases hs : splitOnPred p rest with
      | nil =>
        rw [hs] at hq
        simp only [List.mem_singleton] at hq
        subst hq
        intro d hd
        rcases List.mem_singleton.mp hd with h
        subst h
        exact hp
      | cons q0 qs =>
        rw [hs] at hq
        rcases List.mem_cons.mp hq with h | h
        · subst h
          intro d hd
          rcases List.mem_cons.mp hd with h | h
          · subst h; exact hp
          · exact ih q0 (hs ▸ List.mem_cons_self q0 qs) d h
        · exact ih q (hs ▸ List.mem_cons_of_mem q0 h)

theorem joinChar_splitOnColon (l : List Char) : joinChar ':' (splitOnColon l) = l := by
  induction l with
  | nil => rfl
  | cons c rest ih =>
    simp only [splitOnColon, splitOnPred] at ih ⊢
    rcases Bool.eq_false_or_eq_true (c == ':') with hc | hc
    · have hcc : c = ':' := eq_of_beq hc
      subst hcc
      simp only [hc, if_true]
      cases hs : splitOnPred (fun x => x == ':') rest with
      | nil => exact absurd hs (splitOnPred_ne_nil _ _)
      | cons q qs =>
        rw [hs] at ih
        simpa [joinChar] using ih
    · simp only [hc, Bool.false_eq_true, if_false]
      cases hs : splitOnPred (fun x => x == ':') rest with
      | nil => exact absurd hs (splitOnPred_ne_nil _ _)
      | cons q qs =>
        rw [hs] at ih
        cases qs with
        | nil => simpa [joinChar] using ih
        | cons r rs => simpa [joinChar] using ih

theorem splitOnColon_no_colon (l : List Char) (h : hasChar ':' l = false) :
    splitOnColon l = [l] := by
  induction l with
  | nil => rfl
  | cons c rest ih =>
    rw [hasChar_cons] at h
    have h1 : (c == ':') = false := by
      cases hx : (c == ':') <;> simp [hx] at h ⊢
    have h2 : hasChar ':' rest = false := by
      cases hx : hasChar ':' rest <;> simp [hx] at h ⊢
    simp only [splitOnColon, splitOnPred, h1, Bool.false_eq_true, if_false] at ih ⊢
    rw [ih h2]

theorem splitOnColon_append (a b : List Char) (ha : hasChar ':' a = false) :
    splitOnColon (a ++ ':' :: b) = a :: splitOnColon b := by
  induction a with
  | nil => simp [splitOnColon, splitOnPred]
  | cons c a ih =>
    rw [hasChar_cons] at ha
    have h1 : (c == ':') = false := by
      cases hx : (c == ':') <;> simp [hx] at ha ⊢
    have h2 : hasChar ':' a = false := by
      cases hx : hasChar ':' a <;> simp [hx] at ha ⊢
    have hrec := ih h2
    simp only [splitOnColon] at hrec
    simp only [List.cons_append, splitOnColon, splitOnPred, h1, Bool.false_eq_true, if_false,
      List.append_eq, hrec]

/-- C7: `parse_port_mapping` succeeds exactly on inputs that split on
`:` into exactly two parts each parseable as an unsigned 16-bit
integer, returning the `(host_port, container_port)` pair; the spec's
four concrete examples behave as stated (`"80:8080"` succeeds, the
single-token, non-numeric and three-part inputs fail). -/
theorem C7_parse_port_mapping :
    (∀ l hp cp, parse_port_mapping l = Except.ok (hp, cp) ↔
      ∃ a b, l = a ++ ':' :: b ∧ hasChar ':' a = false ∧ hasChar ':' b = false ∧
        parseU16 a = some hp ∧ parseU16 b = some cp) ∧
    parse_port_mapping ("80:8080".data) = Except.ok (80, 8080) ∧
    (parse_port_mapping ("80".data)).isOk = false ∧
    (parse_port_mapping ("abc:80".data)).isOk = false ∧
    (parse_port_mapping ("80:80:80".data)).isOk = false := by
  refine ⟨?_, by rfl, by rfl, by rfl, by rfl⟩
  intro l hp cp
  constructor
  · intro h
    cases hs : splitOnColon l with
    | nil => exact absurd hs (splitOnPred_ne_nil _ _)
    | cons a qs =>
      cases qs with
      | nil => rw [parse_port_mapping, hs] at h; exact Except.noConfusion h
      | cons b qs2 =>
        cases qs2 with
        | cons q3 qs3 => rw [parse_port_mapping, hs] at h; exact Except.noConfusion h
        | nil =>
          rw [parse_port_mapping, hs] at h
          simp only [] at h
          cases hpa : parseU16 a with
          | none =>
            simp only [hpa] at h
            exact Except.noConfusion h
          | some hp2 =>
            simp only [hpa] at h
            cases hpb : parseU16 b with
            | none =>
              simp only [hpb] at h
              exact Except.noConfusion h
            | some cp2 =>
              simp only [hpb, Except.ok.injEq, Prod.mk.injEq] at h
              obtain ⟨hh, hc⟩ := h
              subst hh; subst hc
              refine ⟨a, b, ?_, ?_, ?_, hpa, hpb⟩
              · have hj := joinChar_splitOnColon l
                rw [hs] at hj
                simpa [joinChar] using hj.symm
              · rw [hasChar_false_iff]
                intro x hx
                have := splitOnPred_parts _ l a (hs ▸ List.mem_cons_self a _) x hx
                simpa using this
              · rw [hasChar_false_iff]
                intro x hx
                have hmem : b ∈ splitOnColon l := by
                  rw [hs]
                  exact List.mem_cons_of_mem a (List.mem_cons_self b _)
                have := splitOnPred_parts _ l b hmem x hx
                simpa using this
  · intro hx
    obtain ⟨a, b, hl, ha, hb, hpa, hpb⟩ := hx
    subst hl
    rw [parse_port_mapping, splitOnColon_append a b ha, splitOnColon_no_colon b hb]
    simp only [hpa, hpb]

/-- C7 witness: the success-characterization applied at the concrete
mapping `"80:8080"`. -/
theorem C7_witness :
    ∃ a b, "80:8080".data = a ++ ':' :: b ∧ hasChar ':' a = false ∧ hasChar ':' b = false ∧
      parseU16 a = some 80 ∧ parseU16 b = some 8080 :=
  (C7_parse_port_mapping.1 ("80:8080".data) 80 8080).mp (by rfl)

/-! ## Helper lemmas: environment merge -/

theorem envLookup_envInsert (m : List (String × String)) (k v q : String) :
    envLookup (envInsert m k v) q = if q = k then some v else envLookup m q := by
  induction m with
  | nil =>
    simp only [envInsert, List.filter_nil, List.nil_append]
    by_cases hqk : q = k
    · subst hqk; simp [envLookup, List.find?]
    · have hf : (k == q) = false := by simpa using Ne.symm hqk
      simp [envLookup, List.find?, hf, hqk]
  | cons p m' ih =>
    by_cases hpk : p.1 = k
    · have hf : (!(p.1 == k)) = false := by simp [hpk]
      have hstep : envInsert (p :: m') k v = envInsert m' k v := by
        simp [envInsert, List.filter_cons, hf]
      rw [hstep, ih]
      by_cases hqk : q = k
      · simp [hqk]
      · have hne : (p.1 == q) = false := by
          rw [hpk]
          simpa using Ne.symm hqk
        simp [hqk, envLookup, List.find?, hne]
    · have hf : (!(p.1 == k)) = true := by simp [hpk]
      have hstep : envInsert (p :: m') k v = p :: envInsert m' k v := by
        simp [envInsert, List.filter_cons, hf]
      rw [hstep]
      by_cases hpq : p.1 = q
      · have hqk : ¬ q = k := by rw [← hpq]; exact fun hx => hpk hx
        have ht : (p.1 == q) = true := by simpa using hpq
        simp [envLookup, List.find?, ht, hqk]
      · have hne : (p.1 == q) = false := by simpa using hpq
        simp only [envLookup, List.find?, hne]
        rw [show (∀ l, (List.find? (fun p => p.1 == q) l).map (fun p => p.2) = envLookup l q) from fun l => rfl,
          show (∀ l, (List.find? (fun p => p.1 == q) l).map (fun p => p.2) = envLookup l q) from fun l => rfl]
        exact ih

theorem nodup_keys_envInsert (m : List (String × String)) (k v : String)
    (h : (m.map Prod.fst).Nodup) : ((envInsert m k v).map Prod.fst).Nodup := by
  rw [envInsert, List.map_append]
  apply List.Nodup.append
  · exact List.Nodup.sublist (List.Sublist.map _ (List.filter_sublist _)) h
  · simp
  · intro a ha hb
    simp only [List.map_cons, List.map_nil, List.mem_singleton] at hb
    subst hb
    obtain ⟨p, hp, hfst⟩ := List.mem_map.mp ha
    have := List.of_mem_filter hp
    rw [hfst] at this
    simp at this

theorem nodup_keys_envInsertAll (envs : List String) (m : List (String × String))
    (h : (m.map Prod.fst).Nodup) : ((envInsertAll m envs).map Prod.fst).Nodup := by
  induction envs generalizing m with
  | nil => exact h
  | cons e rest ih =>
    rw [envInsertAll, List.foldl_cons]
    cases he : envPair e with
    | none =>
      simp only [he]
      exact ih m h
    | some kv =>
      simp only [he]
      exact ih _ (nodup_keys_envInsert m kv.1 kv.2 h)

theorem envInsertAll_cons (m : List (String × String)) (e : String) (rest : List String) :
    envInsertAll m (e :: rest) =
      envInsertAll
        (match envPair e with
          | some (k, v) => envInsert m k v
          | none => m) rest := rfl

theorem envLookup_envInsertAll (envs : List String) (m : List (String × String)) (q : String) :
    envLookup (envInsertAll m envs) q = oor (lastEnvValue envs q) (envLookup m q) := by
  induction envs generalizing m with
  | nil => rfl
  | cons e rest ih =>
    rw [envInsertAll_cons]
    cases he : envPair e with
    | none =>
      simp only [he]
      rw [ih]
      cases hlv : lastEnvValue rest q <;> simp [lastEnvValue, he, hlv, oor]
    | some kv =>
      obtain ⟨k2, v⟩ := kv
      simp only [he]
      rw [ih, envLookup_envInsert]
      cases hlv : lastEnvValue rest q with
      | some w => simp [lastEnvValue, he, hlv, oor]
      | none =>
        by_cases hqk : q = k2
        · have ht : (k2 == q) = true := by simpa using hqk.symm
          have hlv2 : lastEnvValue rest k2 = none := by rw [← hqk]; exact hlv
          simp [lastEnvValue, he, hlv, hlv2, oor, ht, hqk]
        · have hf : (k2 == q) = false := by simpa using Ne.symm hqk
          simp [lastEnvValue, he, hlv, oor, hf, hqk]

theorem envLookup_ne_none_iff (m : List (String × String)) (q : String) :
    envLookup m q ≠ none ↔ q ∈ m.map Prod.fst := by
  induction m with
  | nil => simp [envLookup]
  | cons p m' ih =>
    by_cases hpq : p.1 = q
    · have ht : (p.1 == q) = true := by simpa using hpq
      simp [envLookup, List.find?, ht, hpq.symm]
    · have hf : (p.1 == q) = false := by simpa using hpq
      simp only [envLookup, List.find?, hf, List.map_cons, List.mem_cons]
      rw [show (List.find? (fun p => p.1 == q) m').map (fun p => p.2) = envLookup m' q from rfl]
      constructor
      · intro hx
        exact Or.inr (ih.mp hx)
      · intro hx
        rcases hx with hx | hx
        · exact absurd hx.symm hpq
        · exact ih.mpr hx

/-- C2: for every pair of environment lists, the merge of
`prepare_environment` carries every key at most once; the value bound
to a key is the value of the last user entry with that key when one
exists, else the value of the last image entry with that key (entries
are split on their first `=`, entries without `=` are dropped, later
duplicates within one list win); and a key is present in the merge
exactly when some parseable entry of either list carries it. -/
theorem C2_prepare_environment (userEnvs imageEnvs : List String) (k : String) :
    ((prepare_environment userEnvs imageEnvs).map Prod.fst).Nodup ∧
    envLookup (prepare_environment userEnvs imageEnvs) k =
      oor (lastEnvValue userEnvs k) (lastEnvValue imageEnvs k) ∧
    (k ∈ (prepare_environment userEnvs imageEnvs).map Prod.fst ↔
      oor (lastEnvValue userEnvs k) (lastEnvValue imageEnvs k) ≠ none) := by
  have hmain : envLookup (prepare_environment userEnvs imageEnvs) k =
      oor (lastEnvValue userEnvs k) (lastEnvValue imageEnvs k) := by
    rw [prepare_environment, envLookup_envInsertAll, envLookup_envInsertAll]
    cases lastEnvValue userEnvs k <;> cases lastEnvValue imageEnvs k <;> rfl
  refine ⟨nodup_keys_envInsertAll _ _ (nodup_keys_envInsertAll _ _ (by simp)), hmain, ?_⟩
  rw [← hmain]
  exact (envLookup_ne_none_iff _ _).symm

/-- C2 witness: the spec's example merge, checked through the main
theorem: `USER` resolves to the user-supplied value. -/
theorem C2_witness :
    envLookup (prepare_environment ["USER=app", "HOME=/app"] ["PATH=/usr/bin", "USER=root"]) "USER" =
      oor (lastEnvValue ["USER=app", "HOME=/app"] "USER")
        (lastEnvValue ["PATH=/usr/bin", "USER=root"] "USER") :=
  (C2_prepare_environment ["USER=app", "HOME=/app"] ["PATH=/usr/bin", "USER=root"] "USER").2.1

/-! ## Helper lemmas: blob filenames and the pull write trace -/

theorem mem_of_isPrefixOf (p l : List Char) (h : p.isPrefixOf l = true) :
    ∀ c ∈ p, c ∈ l := by
  induction p generalizing l with
  | nil => intro c hc; cases hc
  | cons a as ih =>
    cases l with
    | nil => simp [List.isPrefixOf] at h
    | cons b bs =>
      simp only [List.isPrefixOf, Bool.and_eq_true] at h
      obtain ⟨h1, h2⟩ := h
      intro c hc
      rcases List.mem_cons.mp hc with hcc | hcc
      · subst hcc
        exact List.mem_cons.mpr (Or.inl (eq_of_beq h1))
      · exact List.mem_cons_of_mem b (ih bs h2 c hcc)

theorem isPrefixOf_append_self (p t : List Char) : p.isPrefixOf (p ++ t) = true := by
  induction p with
  | nil => simp [List.isPrefixOf]
  | cons a as ih => simp [List.isPrefixOf, ih]

theorem replaceShaAux_no_colon (n : Nat) (l : List Char) (h : hasChar ':' l = false) :
    replaceShaAux n l = l := by
  induction n generalizing l with
  | zero => rfl
  | succ n ih =>
    cases l with
    | nil => rfl
    | cons c rest =>
      have h2 : hasChar ':' rest = false := by
        rw [hasChar_cons] at h
        cases hx : hasChar ':' rest <;> simp [hx] at h ⊢
      have hpre : shaPat.isPrefixOf (c :: rest) = false := by
        cases hx : shaPat.isPrefixOf (c :: rest) with
        | false => rfl
        | true =>
          exfalso
          have hcolon : ':' ∈ c :: rest := mem_of_isPrefixOf _ _ hx ':' (by decide)
          have hcontra : hasChar ':' (c :: rest) = true := (hasChar_true_iff _ _).mpr hcolon
          rw [h] at hcontra
          cases hcontra
      simp [replaceShaAux, hpre, ih rest h2]

theorem replaceShaAux_step (fuel : Nat) (c : Char) (r : List Char)
    (h : shaPat.isPrefixOf (c :: r) = true) :
    replaceShaAux (fuel + 1) (c :: r) = replaceShaAux fuel (List.drop shaPat.length (c :: r)) := by
  simp [replaceShaAux, h]

theorem blobFilename_strip (rest : String) (h : hasChar ':' rest.data = false) :
    blobFilename ("sha256:" ++ rest) = rest := by
  have hdata : ("sha256:" ++ rest).data = shaPat ++ rest.data := String.data_append _ _
  have hcons : shaPat ++ rest.data = 's' :: ("ha256:".data ++ rest.data) := rfl
  have hlen : (("sha256:" ++ rest).data).length = (6 + rest.data.length) + 1 := by
    rw [hdata, List.length_append]
    rw [show shaPat.length = 7 from rfl]
    omega
  unfold blobFilename
  rw [hlen, hdata, hcons,
    replaceShaAux_step _ _ _ (by rw [← hcons]; exact isPrefixOf_append_self _ _), ← hcons,
    show shaPat.length = shaPat.length from rfl]
  rw [show List.drop shaPat.length (shaPat ++ rest.data) = rest.data from List.drop_left _ _]
  rw [replaceShaAux_no_colon _ _ h]

theorem pull_foldl (dir : String) (layers : List Layer) (acc : List String) :
    layers.foldl (fun a l => download_blob a dir l.digest) acc =
      acc ++ layers.map (fun l => blobPath dir l.digest) := by
  induction layers generalizing acc with
  | nil => simp
  | cons x xs ih =>
    simp only [List.foldl_cons]
    rw [ih]
    simp [download_blob]

/-- C1: on the success path of `pull_image`, the write trace is the
config blob, then every layer blob in manifest order, then
`manifest.json` last; afterwards the config file, every layer file
and the manifest file all exist under the image directory; and a
well-formed digest (`sha256:` followed by colon-free text) maps to
the filename obtained by removing the `sha256:` prefix. -/
theorem C1_pull_image (fs : List String) (dir : String) (m : ImageManifest) :
    pull_image fs dir m =
      fs ++ (blobPath dir m.config.digest :: m.layers.map (fun l => blobPath dir l.digest))
        ++ [manifestPath dir] ∧
    (pull_image fs dir m).getLast? = some (manifestPath dir) ∧
    blobPath dir m.config.digest ∈ pull_image fs dir m ∧
    (∀ l ∈ m.layers, blobPath dir l.digest ∈ pull_image fs dir m) ∧
    manifestPath dir ∈ pull_image fs dir m ∧
    (∀ rest : String, hasChar ':' rest.data = false →
      blobFilename ("sha256:" ++ rest) = rest) := by
  have hfold : pull_image fs dir m =
      (fs ++ (blobPath dir m.config.digest :: m.layers.map (fun l => blobPath dir l.digest)))
        ++ [manifestPath dir] := by
    simp only [pull_image]
    rw [pull_foldl]
    simp [download_blob]
  refine ⟨by rw [hfold]; try simp, ?_, ?_, ?_, ?_, fun rest h => blobFilename_strip rest h⟩
  · rw [hfold, List.getLast?_concat]
  · rw [hfold]
    simp
  · intro l hl
    rw [hfold]
    simp only [List.mem_append, List.mem_cons, List.mem_map]
    exact Or.inl (Or.inr (Or.inr ⟨l, hl, rfl⟩))
  · rw [hfold]
    simp

/-- C1 witness: a pull of a one-layer manifest writes the config
blob, the layer blob, then the manifest, and the strip-prefix rule
applied at a concrete digest. -/
theorem C1_witness :
    pull_image [] "./images/library_alpine/latest"
        ⟨2, "mt", ⟨"ct", 1536, "sha256:aa11"⟩, [⟨"lt", 2621440, "sha256:bb22"⟩]⟩ =
      ["./images/library_alpine/latest/aa11", "./images/library_alpine/latest/bb22",
       "./images/library_alpine/latest/manifest.json"] ∧
    blobFilename ("sha256:" ++ "abcdef0123") = "abcdef0123" :=
  ⟨by rfl,
   (C1_pull_image [] "d" ⟨2, "mt", ⟨"ct", 0, "sha256:aa"⟩, []⟩).2.2.2.2.2
     "abcdef0123" (by decide)⟩

/-! ## Helper lemmas: container id, IP formula, veth names -/

theorem natDigitsAux_length (k : Nat) :
    ∀ fuel n acc, 10 ^ k ≤ n → n < 10 ^ (k + 1) → k < fuel →
      (natDigitsAux fuel n acc).length = (k + 1) + acc.length := by
  induction k with
  | zero =>
    intro fuel n acc h1 h2 hf
    cases fuel with
    | zero => omega
    | succ f =>
      have hn : n < 10 := by simpa using h2
      simp [natDigitsAux, hn]
      omega
  | succ k ih =>
    intro fuel n acc h1 h2 hf
    cases fuel with
    | zero => omega
    | succ f =>
      have h10 : (10:Nat) ≤ 10 ^ (k + 1) := by
        calc (10:Nat) = 10 ^ 1 := (pow_one 10).symm
        _ ≤ 10 ^ (k + 1) := Nat.pow_le_pow_right (by omega) (by omega)
      have hn : ¬ n < 10 := by omega
      have hd1 : 10 ^ k ≤ n / 10 := by
        rw [Nat.le_div_iff_mul_le (by omega)]
        calc 10 ^ k * 10 = 10 ^ (k + 1) := (pow_succ 10 k).symm
        _ ≤ n := h1
      have hd2 : n / 10 < 10 ^ (k + 1) := by
        rw [Nat.div_lt_iff_lt_mul (by omega)]
        calc n < 10 ^ (k + 1 + 1) := h2
        _ = 10 ^ (k + 1) * 10 := pow_succ 10 (k + 1)
      have := ih f (n / 10) (digitChar (n % 10) :: acc) hd1 hd2 (by omega)
      simp only [natDigitsAux, hn, if_false]
      rw [this]
      simp
      omega

theorem natDigits_len10 (n : Nat) (h1 : 1000000000 ≤ n) (h2 : n < 10000000000) :
    (natDigits n).length = 10 := by
  have e1 : (10:Nat) ^ 9 = 1000000000 := by norm_num
  have e2 : (10:Nat) ^ 10 = 10000000000 := by norm_num
  have := natDigitsAux_length 9 (n + 1) n [] (by omega) (by rw [show (9:Nat) + 1 = 10 from rfl, e2]; omega) (by omega)
  simpa [natDigits] using this

theorem containerId_len (ts : Nat) (h1 : 1000000000 ≤ ts) (h2 : ts < 10000000000) :
    (containerId ts).data.length = 20 := by
  rw [containerId, String.data_append, List.length_append]
  rw [show ("rustainer_".data).length = 10 from rfl]
  rw [show (natStr ts).data = natDigits ts from rfl]
  rw [natDigits_len10 ts h1 h2]

theorem containerIp_const (ts : Nat) (h1 : 1000000000 ≤ ts) (h2 : ts < 10000000000) :
    containerIpForwarding (containerId ts) = "172.18.0.22" := by
  rw [containerIpForwarding, ipSuffixForwarding, containerId_len ts h1 h2]
  decide

/-- C10: every container id generated by `run_container` is
`rustainer_` followed by the ten-digit decimal unix timestamp (ten
digits for every timestamp in `[10^9, 10^10)`), so its length is
always 20; both `configure_container_interface` and
`setup_port_forwarding` compute the IP suffix `(len % 254) + 2 = 22`,
assigning the constant address `172.18.0.22` to every container, and
any two such containers therefore collide. -/
theorem C10_container_ip (ts : Nat) (h1 : 1000000000 ≤ ts) (h2 : ts < 10000000000) :
    (containerId ts).data.length = 20 ∧
    ipSuffixInterface (containerId ts) = 22 ∧
    ipSuffixForwarding (containerId ts) = 22 ∧
    containerIpInterface (containerId ts) = "172.18.0.22/16" ∧
    containerIpForwarding (containerId ts) = "172.18.0.22" ∧
    (∀ ts2, 1000000000 ≤ ts2 → ts2 < 10000000000 →
      containerIpForwarding (containerId ts2) = containerIpForwarding (containerId ts)) := by
  have hlen := containerId_len ts h1 h2
  refine ⟨hlen, ?_, ?_, ?_, containerIp_const ts h1 h2, ?_⟩
  · rw [ipSuffixInterface, hlen]
  · rw [ipSuffixForwarding, hlen]
  · rw [containerIpInterface, ipSuffixInterface, hlen]
    decide
  · intro ts2 g1 g2
    rw [containerIp_const ts2 g1 g2, containerIp_const ts h1 h2]

/-- C10 witness: the theorem applied at the concrete timestamp
1700000000. -/
theorem C10_witness :
    containerIpForwarding (containerId 1700000000) = "172.18.0.22" :=
  (C10_container_ip 1700000000 (by omega) (by omega)).2.2.2.2.1

theorem take8_containerId (ts : Nat) : (containerId ts).data.take 8 = "rustaine".data := by
  rw [containerId, String.data_append]
  rw [show ("rustainer_".data : List Char) = "rustaine".data ++ "r_".data from rfl]
  rw [List.append_assoc]
  exact List.take_left' (by rfl)

/-- C9 counterexample: for the run-generated id
`rustainer_1700000000` the code produces the names `veth-rustaine`
and `cveth-rustaine`, not the claimed `vethrustaineh` and
`vethrustainec` (`veth<short>h` / `veth<short>c`). -/
theorem C9_counterexample :
    create_veth_pair_names "rustainer_1700000000" = ("veth-rustaine", "cveth-rustaine") ∧
    ("veth-rustaine", "cveth-rustaine") ≠ ("vethrustaineh", "vethrustainec") :=
  ⟨by decide, by decide⟩

/-- C9 (amended): for every container id generated by
`run_container`, the veth pair is named `veth-<short>` on the host
side and `cveth-<short>` on the container side, where `<short>` is
the first 8 characters of the id — concretely `veth-rustaine` and
`cveth-rustaine` for every timestamp. -/
theorem C9_create_veth_pair (ts : Nat) :
    create_veth_pair_names (containerId ts) =
      ("veth-" ++ String.mk ((containerId ts).data.take 8),
       "cveth-" ++ String.mk ((containerId ts).data.take 8)) ∧
    create_veth_pair_names (containerId ts) = ("veth-rustaine", "cveth-rustaine") := by
  refine ⟨rfl, ?_⟩
  rw [create_veth_pair_names, take8_containerId]
  decide

/-! ## Helper lemmas: remove_container -/

theorem getLast_mid_append {α : Type} (p : List α) (x a : α) (ns : List α) :
    (p ++ x :: (ns ++ [a])).getLast? = some a := by
  rw [show p ++ x :: (ns ++ [a]) = (p ++ x :: ns) ++ [a] by simp]
  exact List.getLast?_concat _

/-- C8 (amended): `remove_container` rejects with an error — running
no external command and leaving the directory list unchanged — when
the container directory is missing; when the directory exists it
always succeeds, for EVERY outcome of the external commands (their
exit status and stderr are discarded unconditionally, with no
stderr substring matching), running the full teardown trace of
`stop_container` — whose final command is the FORWARD flush — before
removing the directory. -/
theorem C8_remove_container (exec : List String → CmdResult) (dirs ports : List String)
    (id : String) :
    (dirs.contains id = false →
      remove_container exec dirs ports id =
        (Except.error ("Container " ++ id ++ " does not exist"), [])) ∧
    (dirs.contains id = true →
      (remove_container exec dirs ports id).1 = Except.ok (dirs.erase id) ∧
      (remove_container exec dirs ports id).2 = stop_container exec ports id ∧
      (remove_container exec dirs ports id).2.getLast? = some ["iptables", "-F", "FORWARD"]) := by
  constructor
  · intro h
    have hnmem : id ∉ dirs := by simpa using h
    simp [remove_container, hnmem]
  · intro h
    have hmem : id ∈ dirs := by simpa using h
    refine ⟨by simp [remove_container, hmem], by simp [remove_container, hmem], ?_⟩
    have h2 : (remove_container exec dirs ports id).2 = stop_container exec ports id := by
      simp [remove_container, hmem]
    rw [h2, stop_container]
    exact getLast_mid_append _ _ _ _

/-- C8 witness: the amended theorem at a present and at an absent
container directory, under the all-commands-fail environment. -/
theorem C8_witness :
    (remove_container denyExec ["c1"] [] "c1").1 = Except.ok ([] : List String) ∧
    remove_container denyExec [] [] "c1" =
      (Except.error ("Container " ++ "c1" ++ " does not exist"), []) := by
  constructor
  · have h := ((C8_remove_container denyExec ["c1"] [] "c1").2 (by decide)).1
    rw [show (["c1"] : List String).erase "c1" = [] from by decide] at h
    exact h
  · exact (C8_remove_container denyExec [] [] "c1").1 (by decide)

/-- C8 counterexample to the original claim: with every external
command failing with the non-"already absent" stderr
`Operation not permitted`, the teardown still runs to completion and
`remove_container` still succeeds — the failures are swallowed
without any stderr substring matching, not only "already absent"
ones. -/
theorem C8_counterexample :
    (remove_container denyExec ["rustainer_1"] ["80:8080"] "rustainer_1").1 =
      Except.ok ([] : List String) ∧
    iptablesDeleteDnat "PREROUTING" ("80".data) ∈
      (remove_container denyExec ["rustainer_1"] ["80:8080"] "rustainer_1").2 ∧
    (denyExec (iptablesDeleteDnat "PREROUTING" ("80".data))).success = false ∧
    (denyExec (iptablesDeleteDnat "PREROUTING" ("80".data))).stderr = "Operation not permitted" :=
  ⟨by rfl, by decide, rfl, rfl⟩
